import Mathlib

/-!
Verification of the operator-collection core of `qiskit_dynamics/models/operator_collections.py`.

The source code works with numpy arrays of complex floating-point numbers.  The shallow
embedding below replaces the scalars by exact complex rationals (`CQ`), so that every
algebraic identity of the source can be stated and decided exactly.  Sparse matrices
(`scipy.sparse.csr_matrix`) perform exact arithmetic on their stored values, so they are
embedded as plain matrices whose entries are the (decimal-rounded) construction inputs.
-/

/-- Complex numbers with rational real and imaginary parts; the exact counterpart of the
numpy complex scalars used throughout `operator_collections.py`. -/
structure CQ where
  re : ℚ
  im : ℚ
deriving DecidableEq

instance : Zero CQ := ⟨⟨0, 0⟩⟩
instance : One CQ := ⟨⟨1, 0⟩⟩
instance : Add CQ := ⟨fun a b => ⟨a.re + b.re, a.im + b.im⟩⟩
instance : Neg CQ := ⟨fun a => ⟨-a.re, -a.im⟩⟩
instance : Mul CQ := ⟨fun a b => ⟨a.re * b.re - a.im * b.im, a.re * b.im + a.im * b.re⟩⟩

instance : CommRing CQ where
  nsmul := nsmulRec
  zsmul := zsmulRec
  add_assoc := fun ⟨a1, a2⟩ ⟨b1, b2⟩ ⟨c1, c2⟩ => congrArg₂ CQ.mk
    (show a1 + b1 + c1 = a1 + (b1 + c1) by ring)
    (show a2 + b2 + c2 = a2 + (b2 + c2) by ring)
  zero_add := fun ⟨a1, a2⟩ => congrArg₂ CQ.mk
    (show 0 + a1 = a1 by ring) (show 0 + a2 = a2 by ring)
  add_zero := fun ⟨a1, a2⟩ => congrArg₂ CQ.mk
    (show a1 + 0 = a1 by ring) (show a2 + 0 = a2 by ring)
  add_comm := fun ⟨a1, a2⟩ ⟨b1, b2⟩ => congrArg₂ CQ.mk
    (show a1 + b1 = b1 + a1 by ring) (show a2 + b2 = b2 + a2 by ring)
  mul_assoc := fun ⟨a1, a2⟩ ⟨b1, b2⟩ ⟨c1, c2⟩ => congrArg₂ CQ.mk
    (show (a1 * b1 - a2 * b2) * c1 - (a1 * b2 + a2 * b1) * c2
        = a1 * (b1 * c1 - b2 * c2) - a2 * (b1 * c2 + b2 * c1) by ring)
    (show (a1 * b1 - a2 * b2) * c2 + (a1 * b2 + a2 * b1) * c1
        = a1 * (b1 * c2 + b2 * c1) + a2 * (b1 * c1 - b2 * c2) by ring)
  one_mul := fun ⟨a1, a2⟩ => congrArg₂ CQ.mk
    (show 1 * a1 - 0 * a2 = a1 by ring) (show 1 * a2 + 0 * a1 = a2 by ring)
  mul_one := fun ⟨a1, a2⟩ => congrArg₂ CQ.mk
    (show a1 * 1 - a2 * 0 = a1 by ring) (show a1 * 0 + a2 * 1 = a2 by ring)
  left_distrib := fun ⟨a1, a2⟩ ⟨b1, b2⟩ ⟨c1, c2⟩ => congrArg₂ CQ.mk
    (show a1 * (b1 + c1) - a2 * (b2 + c2)
        = a1 * b1 - a2 * b2 + (a1 * c1 - a2 * c2) by ring)
    (show a1 * (b2 + c2) + a2 * (b1 + c1)
        = a1 * b2 + a2 * b1 + (a1 * c2 + a2 * c1) by ring)
  right_distrib := fun ⟨a1, a2⟩ ⟨b1, b2⟩ ⟨c1, c2⟩ => congrArg₂ CQ.mk
    (show (a1 + b1) * c1 - (a2 + b2) * c2
        = a1 * c1 - a2 * c2 + (b1 * c1 - b2 * c2) by ring)
    (show (a1 + b1) * c2 + (a2 + b2) * c1
        = a1 * c2 + a2 * c1 + (b1 * c2 + b2 * c1) by ring)
  zero_mul := fun ⟨a1, a2⟩ => congrArg₂ CQ.mk
    (show 0 * a1 - 0 * a2 = 0 by ring) (show 0 * a2 + 0 * a1 = 0 by ring)
  mul_zero := fun ⟨a1, a2⟩ => congrArg₂ CQ.mk
    (show a1 * 0 - a2 * 0 = 0 by ring) (show a1 * 0 + a2 * 0 = 0 by ring)
  mul_comm := fun ⟨a1, a2⟩ ⟨b1, b2⟩ => congrArg₂ CQ.mk
    (show a1 * b1 - a2 * b2 = b1 * a1 - b2 * a2 by ring)
    (show a1 * b2 + a2 * b1 = b1 * a2 + b2 * a1 by ring)
  neg_add_cancel := fun ⟨a1, a2⟩ => congrArg₂ CQ.mk
    (show -a1 + a1 = 0 by ring) (show -a2 + a2 = 0 by ring)

/-- The imaginary unit, the embedding of the Python literal `1j`. -/
def CQ.I : CQ := ⟨0, 1⟩

/-- Complex conjugation (numpy `np.conjugate`). -/
def CQ.conj (z : CQ) : CQ := ⟨z.re, -z.im⟩

/-- Embedding of a real (rational) scalar. -/
def CQ.ofRat (q : ℚ) : CQ := ⟨q, 0⟩

/-- Magnitude bound used for rounding-tolerance statements: the sum of the absolute
values of the real and imaginary parts (an upper bound for the complex modulus). -/
def CQ.cAbs (z : CQ) : ℚ := |z.re| + |z.im|

/-- Embedding of numpy round-half-to-even (bankers rounding) to an integer. -/
def npRoundInt (x : ℚ) : ℤ :=
  if Int.fract x < 1 / 2 then ⌊x⌋
  else if 1 / 2 < Int.fract x then ⌊x⌋ + 1
  else if ⌊x⌋ % 2 = 0 then ⌊x⌋ else ⌊x⌋ + 1

/-- Embedding of `np.round(x, dec)`: round to `dec` places after the decimal point. -/
def roundDec (dec : ℕ) (x : ℚ) : ℚ := (npRoundInt (x * 10 ^ dec) : ℚ) / 10 ^ dec

/-- Square complex matrices of dimension `n`, the embedding of numpy `(n, n)` arrays. -/
abbrev Mat (n : ℕ) := Matrix (Fin n) (Fin n) CQ

/-- Entrywise `np.round(·, dec)` of a matrix (real and imaginary parts separately,
as numpy does). -/
def roundCQ (dec : ℕ) (z : CQ) : CQ := ⟨roundDec dec z.re, roundDec dec z.im⟩

/-- Entrywise rounding of a matrix. -/
def roundMat {ι : Type} (dec : ℕ) (M : Matrix ι ι CQ) : Matrix ι ι CQ :=
  Matrix.of fun i j => roundCQ dec (M i j)

/-- Embedding of `np.tensordot(s, ops, axes=1)` for a `(k,)` signal vector against a
stacked `(k, n, n)` operator array: contraction over the operator index. -/
def tensordot1 {k : ℕ} {ι : Type} [Fintype ι] (s : Fin k → CQ)
    (ops : Fin k → Matrix ι ι CQ) : Matrix ι ι CQ :=
  Matrix.of fun i j => ∑ l, s l * ops l i j

/-- Conjugate transpose `np.conjugate(np.transpose(·))`, written `L†` in the docstrings. -/
def dagger {n : ℕ} (M : Mat n) : Mat n := Matrix.of fun i j => (M j i).conj

/-- Embedding of `DenseOperatorCollection.__init__` state: the stacked operator array
`G_j` and the optional drift `G_d`.  The index type `ι` is `Fin n` for the plain dense
collection and `Fin n × Fin n` for the vectorized Lindblad collection that inherits
from it. -/
structure DenseOperatorCollection (k : ℕ) (ι : Type) where
  operators : Fin k → Matrix ι ι CQ
  drift : Option (Matrix ι ι CQ)

/-- Embedding of `DenseOperatorCollection.__init__` (`to_array` is the identity on the
values modelled here). -/
def DenseOperatorCollection.init {k : ℕ} {ι : Type} (operators : Fin k → Matrix ι ι CQ)
    (drift : Option (Matrix ι ι CQ)) : DenseOperatorCollection k ι :=
  ⟨operators, drift⟩

/-- Embedding of `DenseOperatorCollection.num_operators`: `self._operators.shape[0]`
of the `(k, n, n)` stacked array. -/
def DenseOperatorCollection.num_operators {k : ℕ} {ι : Type}
    (_ : DenseOperatorCollection k ι) : ℕ := k

/-- Embedding of `DenseOperatorCollection.evaluate_generator`. -/
def DenseOperatorCollection.evaluate_generator {k : ℕ} {ι : Type} [Fintype ι]
    (c : DenseOperatorCollection k ι) (signal_values : Fin k → CQ) : Matrix ι ι CQ :=
  match c.drift with
  | none => tensordot1 signal_values c.operators
  | some d => tensordot1 signal_values c.operators + d

/-- Embedding of `DenseOperatorCollection.evaluate_rhs` for a 1-D state `y`
(`np.dot` of a matrix with a vector). -/
def DenseOperatorCollection.evaluate_rhs_vec {k : ℕ} {ι : Type} [Fintype ι]
    (c : DenseOperatorCollection k ι) (signal_values : Fin k → CQ) (y : ι → CQ) : ι → CQ :=
  (c.evaluate_generator signal_values).mulVec y

/-- Embedding of `DenseOperatorCollection.evaluate_rhs` for a 2-D state `y` of stacked
column states (`np.dot` of two matrices). -/
def DenseOperatorCollection.evaluate_rhs_mat {k p : ℕ} {ι : Type} [Fintype ι]
    (c : DenseOperatorCollection k ι) (signal_values : Fin k → CQ)
    (y : Matrix ι (Fin p) CQ) : Matrix ι (Fin p) CQ :=
  c.evaluate_generator signal_values * y

/-- Embedding of `SparseOperatorCollection` state: a `(k,)` object array of
`csr_matrix` operators and a `csr_matrix` drift.  `csr_matrix` arithmetic is exact on
the stored values, so each sparse matrix is embedded by the matrix of its entries; the
constructor rounds every entry to `decimals` decimal places before sparsifying. -/
structure SparseOperatorCollection (k n : ℕ) where
  operators : Fin k → Mat n
  drift : Mat n

/-- The successful branch of `SparseOperatorCollection.__init__` (drift not `None`):
every operator and the drift are rounded to `decimals` places. -/
def SparseOperatorCollection.make {k n : ℕ} (operators : Fin k → Mat n) (drift : Mat n)
    (decimals : ℕ) : SparseOperatorCollection k n :=
  ⟨fun j => roundMat decimals (operators j), roundMat decimals drift⟩

/-- Embedding of `SparseOperatorCollection.__init__`.  The constructor first runs
`np.round(drift, decimals)`, which raises a `TypeError` when `drift` is `None`
(`None` has no `rint` method), so construction with the default drift fails. -/
def SparseOperatorCollection.init {k n : ℕ} (operators : Fin k → Mat n)
    (drift : Option (Mat n)) (decimals : ℕ) : Except String (SparseOperatorCollection k n) :=
  match drift with
  | none => .error "TypeError: np.round does not support None"
  | some d => .ok (SparseOperatorCollection.make operators d decimals)

/-- Embedding of `SparseOperatorCollection.num_operators`: the shape `(k,)` of the
object array of csr matrices. -/
def SparseOperatorCollection.num_operators {k n : ℕ}
    (_ : SparseOperatorCollection k n) : ℕ := k

/-- Embedding of `SparseOperatorCollection.evaluate_generator`: the signal vector is
reshaped to `(1, k)`, contracted against the object array and unwrapped, giving the
same weighted sum; the `self._drift is None` branch is dead code because the drift
setter always stores a `csr_matrix`, so the drift is added unconditionally. -/
def SparseOperatorCollection.evaluate_generator {k n : ℕ}
    (c : SparseOperatorCollection k n) (signal_values : Fin k → CQ) : Mat n :=
  tensordot1 signal_values c.operators + c.drift

/-- Shape-tagged numpy array argument, used to embed the `len(y.shape)` dispatch of
`SparseOperatorCollection.evaluate_rhs`. -/
inductive NpArray (n : ℕ) where
  | scalar (z : CQ)
  | vec (y : Fin n → CQ)
  | mat (p : ℕ) (y : Matrix (Fin n) (Fin p) CQ)
  | arr3 (b p : ℕ) (y : Fin b → Matrix (Fin n) (Fin p) CQ)

/-- Embedding of `SparseOperatorCollection.evaluate_rhs`: for a 2-D `y` the generator
is materialized first and multiplied onto `y`; for a 1-D `y` the weighted
operator-vector products are summed directly (`np.dot(signal_values,
self._operators * tmparr) + self.drift.dot(y)`); any other number of dimensions falls
through both branches and the Python function implicitly returns `None`. -/
def SparseOperatorCollection.evaluate_rhs {k n : ℕ} (c : SparseOperatorCollection k n)
    (signal_values : Fin k → CQ) (y : NpArray n) : Option (NpArray n) :=
  match y with
  | .mat p Y => some (.mat p ((tensordot1 signal_values c.operators + c.drift) * Y))
  | .vec v => some (.vec (fun i =>
      (∑ j, signal_values j * (c.operators j).mulVec v i) + c.drift.mulVec v i))
  | _ => none

/-- Embedding of Python negative tuple indexing `shape[i]` on a numpy shape tuple:
negative indices count from the end, out-of-range indices raise `IndexError`. -/
def npShapeGet (shape : List ℕ) (i : ℤ) : Except String ℕ :=
  let j : ℤ := if i < 0 then i + shape.length else i
  if h : 0 ≤ j ∧ j.toNat < shape.length then .ok (shape.get ⟨j.toNat, h.2⟩)
  else .error "IndexError: tuple index out of range"

/-- Embedding of `DenseLindbladCollection` state.  `__init__` stores the Hamiltonian
operators, the (possibly `None`) dissipator operators, the precomputed conjugate
transposes and products `L_j^dagger L_j`, and the drift (a required positional
argument in Python, but any value including `None` may be passed). -/
structure DenseLindbladCollection (k m n : ℕ) where
  hamiltonian_operators : Fin k → Mat n
  dissipator_operators : Option (Fin m → Mat n)
  dissipator_operators_conj : Option (Fin m → Mat n)
  dissipator_products : Option (Fin m → Mat n)
  drift : Option (Mat n)

/-- Embedding of `DenseLindbladCollection.__init__` (argument order as in the source:
`hamiltonian_operators, drift, dissipator_operators`). -/
def DenseLindbladCollection.init {k m n : ℕ} (hamiltonian_operators : Fin k → Mat n)
    (drift : Option (Mat n)) (dissipator_operators : Option (Fin m → Mat n)) :
    DenseLindbladCollection k m n :=
  { hamiltonian_operators := hamiltonian_operators
    dissipator_operators := dissipator_operators
    dissipator_operators_conj := dissipator_operators.map (fun L l => dagger (L l))
    dissipator_products := dissipator_operators.map (fun L l => dagger (L l) * L l)
    drift := drift }

/-- Embedding of `DenseLindbladCollection.num_operators`: the tuple
`(self._hamiltonian_operators.shape[-3], self._dissipator_operators.shape[-3])`.
The Hamiltonian array has shape `(k, n, n)`; when the dissipator operators are `None`
the attribute access `None.shape` raises `AttributeError`. -/
def DenseLindbladCollection.num_operators {k m n : ℕ}
    (c : DenseLindbladCollection k m n) : Except String (ℕ × ℕ) :=
  match npShapeGet [k, n, n] (-3) with
  | .error e => .error e
  | .ok a =>
    match c.dissipator_operators with
    | none => .error "AttributeError: NoneType object has no attribute shape"
    | some _ =>
      match npShapeGet [m, n, n] (-3) with
      | .error e => .error e
      | .ok b => .ok (a, b)

/-- Embedding of `DenseLindbladCollection.evaluate_generator`: unconditionally raises. -/
def DenseLindbladCollection.evaluate_generator {k m n : ℕ}
    (_ : DenseLindbladCollection k m n) (_ : Fin k → CQ) : Except String (Mat n) :=
  .error "Non-vectorized Lindblad collections cannot be evaluated without a state."

/-- Embedding of `DenseLindbladCollection.evaluate_hamiltonian`:
`np.tensordot(signal_values, self._hamiltonian_operators, axes=1) + self.drift`.
Adding `None` to an ndarray raises `TypeError`. -/
def DenseLindbladCollection.evaluate_hamiltonian {k m n : ℕ}
    (c : DenseLindbladCollection k m n) (signal_values : Fin k → CQ) :
    Except String (Mat n) :=
  match c.drift with
  | none => .error "TypeError: unsupported operand types for add: ndarray and NoneType"
  | some d => .ok (tensordot1 signal_values c.hamiltonian_operators + d)

/-- State argument of `DenseLindbladCollection.evaluate_rhs`: a single `(n, n)` density
matrix or a `(b, n, n)` batch. -/
inductive LState (n : ℕ) where
  | single (ρ : Mat n)
  | batch (b : ℕ) (ρs : Fin b → Mat n)

deriving instance DecidableEq for Except

/-- Result values of `DenseLindbladCollection.evaluate_rhs`: a 2-D or a 3-D array. -/
inductive NpOut where
  | mat2 (d1 d2 : ℕ) (M : Matrix (Fin d1) (Fin d2) CQ)
  | arr3 (d1 d2 d3 : ℕ) (A : Fin d1 → Fin d2 → Fin d3 → CQ)
deriving DecidableEq

/-- Embedding of `DenseLindbladCollection.evaluate_rhs`.

With dissipators configured it computes `(A + B) y + y (A - B) + C` with
`B = -1j * H`, `A = -(1/2) * tensordot(gamma, products)` and
`C = tensordot(gamma, L y L^dagger)`; `np.matmul` broadcasts a `(b, n, n)` batch over
the leading axis, and after the `broadcast_to`/`transpose` reshaping the jump-term
contraction also acts batchwise.

Without dissipators it computes `np.dot(B, y) - np.dot(y, B)`.  For a single matrix
state this is the commutator.  For a 3-D batch, however, `np.dot` of a `(n, n)` matrix
with a `(b, n, n)` array produces a `(n, b, n)` array
(`dot(B, y)[i, bi, k] = sum_l B[i, l] * y[bi, l, k]`), while `np.dot(y, B)` produces
`(b, n, n)`; the subtraction then follows the numpy broadcasting rules for the shape
pair `(n, b, n) - (b, n, n)`, which raises `ValueError` unless `b = n`, `b = 1` or
`n = 1`, and otherwise produces an array that is not the batch of commutators. -/
def DenseLindbladCollection.evaluate_rhs {k m n : ℕ} (c : DenseLindbladCollection k m n)
    (ham_signal_values : Fin k → CQ) (dis_signal_values : Fin m → CQ) (y : LState n) :
    Except String NpOut :=
  match c.evaluate_hamiltonian ham_signal_values with
  | .error e => .error e
  | .ok H =>
    let B : Mat n := (-CQ.I) • H
    match c.dissipator_operators, c.dissipator_operators_conj, c.dissipator_products with
    | some L, some LC, some P =>
      let A : Mat n := CQ.ofRat (-1 / 2) • tensordot1 dis_signal_values P
      match y with
      | .single ρ =>
        .ok (.mat2 n n ((B + A) * ρ + ρ * (-B + A)
          + tensordot1 dis_signal_values (fun l => L l * ρ * LC l)))
      | .batch b ρs =>
        .ok (.arr3 b n n (fun bi i j => ((B + A) * ρs bi + ρs bi * (-B + A)
          + tensordot1 dis_signal_values (fun l => L l * ρs bi * LC l)) i j))
    | _, _, _ =>
      match y with
      | .single ρ => .ok (.mat2 n n (B * ρ - ρ * B))
      | .batch b ρs =>
        if hbn : b = n then
          .ok (.arr3 n n n (fun x y z =>
            (B * ρs (Fin.cast hbn.symm y)) x z - (ρs (Fin.cast hbn.symm x) * B) y z))
        else if hb1 : b = 1 then
          .ok (.arr3 n n n (fun x y z =>
            (B * ρs (Fin.cast hb1.symm 0)) x z - (ρs (Fin.cast hb1.symm 0) * B) y z))
        else if hn1 : n = 1 then
          .ok (.arr3 b b 1 (fun x y _ =>
            (B * ρs y) (Fin.cast hn1.symm 0) (Fin.cast hn1.symm 0)
              - (ρs x * B) (Fin.cast hn1.symm 0) (Fin.cast hn1.symm 0)))
        else .error "ValueError: operands could not be broadcast together"

/-- Embedding of `SparseLindbladCollection` state: the Hamiltonian operators are stored
as a `(k,)` object array of csr matrices (rounded entries), similarly the dissipator
data. -/
structure SparseLindbladCollection (k m n : ℕ) where
  hamiltonian_operators : Fin k → Mat n
  drift : Mat n
  dissipator_operators : Option (Fin m → Mat n)
  dissipator_operators_conj : Option (Fin m → Mat n)
  dissipator_products : Option (Fin m → Mat n)

/-- Embedding of `SparseLindbladCollection.__init__`: every operator is rounded to
`decimals` places and sparsified; `csr_matrix(np.round(drift, decimals))` raises a
`TypeError` when `drift` is `None`. -/
def SparseLindbladCollection.init {k m n : ℕ} (hamiltonian_operators : Fin k → Mat n)
    (drift : Option (Mat n)) (dissipator_operators : Option (Fin m → Mat n))
    (decimals : ℕ) : Except String (SparseLindbladCollection k m n) :=
  match drift with
  | none => .error "TypeError: np.round does not support None"
  | some d => .ok
    { hamiltonian_operators := fun j => roundMat decimals (hamiltonian_operators j)
      drift := roundMat decimals d
      dissipator_operators := dissipator_operators.map (fun L l => roundMat decimals (L l))
      dissipator_operators_conj :=
        dissipator_operators.map (fun L l => dagger (roundMat decimals (L l)))
      dissipator_products := dissipator_operators.map
        (fun L l => dagger (roundMat decimals (L l)) * roundMat decimals (L l)) }

/-- Embedding of `num_operators` as inherited by `SparseLindbladCollection` from
`DenseLindbladCollection`: `self._hamiltonian_operators.shape[-3]` is evaluated first,
but here the stored operator array is the 1-D object array of shape `(k,)`, so the
tuple index `-3` is out of range. -/
def SparseLindbladCollection.num_operators {k m n : ℕ}
    (c : SparseLindbladCollection k m n) : Except String (ℕ × ℕ) :=
  match npShapeGet [k] (-3) with
  | .error e => .error e
  | .ok a =>
    match c.dissipator_operators with
    | none => .error "AttributeError: NoneType object has no attribute shape"
    | some _ =>
      match npShapeGet [m] (-3) with
      | .error e => .error e
      | .ok b => .ok (a, b)

/-- Embedding of `evaluate_generator` as inherited by `SparseLindbladCollection`:
unconditionally raises. -/
def SparseLindbladCollection.evaluate_generator {k m n : ℕ}
    (_ : SparseLindbladCollection k m n) (_ : Fin k → CQ) : Except String (Mat n) :=
  .error "Non-vectorized Lindblad collections cannot be evaluated without a state."

/-- Embedding of `package_density_matrices` (after `np.vectorize` with signature
`(n,n)->(1)`): a `(b, n, n)` batch becomes a `(b, 1)` object array whose entry
`[j, 0]` is the j-th density matrix. -/
def package_density_matrices {b n : ℕ} (y : Fin b → Mat n) : Fin b → Fin 1 → Mat n :=
  fun j _ => y j

/-- Embedding of `unpackage_density_matrices` (after `np.vectorize` with signature
`(1)->(n,n)`): the inverse unpacking `y[j, 0]`. -/
def unpackage_density_matrices {b n : ℕ} (y : Fin b → Fin 1 → Mat n) : Fin b → Mat n :=
  fun j => y j 0

/-- Entrywise complex conjugate of a matrix (numpy `np.conjugate`). -/
def conjMat {n : ℕ} (M : Mat n) : Mat n := Matrix.of fun i j => (M i j).conj

/-- Column-stacking vectorization fixed by the source docstring: the matrix
`[[a, b], [c, d]]` becomes the vector `[a, c, b, d]`.  With the lexicographic order on
`Fin n × Fin n` the component at `(j, i)` is the matrix entry at row `i`, column `j`. -/
def vec {n : ℕ} (ρ : Mat n) : Fin n × Fin n → CQ := fun p => ρ p.2 p.1

/-- Inverse of the column-stacking vectorization. -/
def unvec {n : ℕ} (v : Fin n × Fin n → CQ) : Mat n := Matrix.of fun i j => v (j, i)

/-- Kronecker product of two `(n, n)` matrices as an `(n^2, n^2)` superoperator matrix
on the column-stacked index set. -/
def kron {n : ℕ} (A B : Mat n) : Matrix (Fin n × Fin n) (Fin n × Fin n) CQ :=
  Matrix.of fun p q => A p.1 q.1 * B p.2 q.2

/-- Modelled from the spec: `vec_commutator` from `qiskit_dynamics.type_utils` is not
under `src/`; per spec section 4.5 the commutator superoperator of `A` is the
left-multiplication superoperator minus the right-multiplication superoperator in the
column-stacking convention, i.e. `I ⊗ A - Aᵀ ⊗ I`. -/
def vec_commutator {n : ℕ} (A : Mat n) : Matrix (Fin n × Fin n) (Fin n × Fin n) CQ :=
  kron 1 A - kron A.transpose 1

/-- Modelled from the spec: `vec_dissipator` from `qiskit_dynamics.type_utils` is not
under `src/`; per spec section 4.5 the dissipator superoperator of `L` is
`(left L ⊗ conjugate-right L) - (1/2) left(L†L) - (1/2) right(L†L)`, i.e.
`conj(L) ⊗ L - (1/2) (I ⊗ L†L) - (1/2) ((L†L)ᵀ ⊗ I)` in column-stacking convention. -/
def vec_dissipator {n : ℕ} (L : Mat n) : Matrix (Fin n × Fin n) (Fin n × Fin n) CQ :=
  kron (conjMat L) L
    - CQ.ofRat (1 / 2) • (kron 1 (dagger L * L) + kron (dagger L * L).transpose 1)

/-- Modelled from the spec: the symbol `vec_drift` referenced by
`DenseVectorizedLindbladCollection.__init__` is undefined in the source; spec section 9
states the intended value is the drift vectorized via the same commutator-superoperator
transform used for the Hamiltonian terms, i.e. `-1j * vec_commutator(drift)`. -/
def vec_drift {n : ℕ} (drift : Mat n) : Matrix (Fin n × Fin n) (Fin n × Fin n) CQ :=
  (-CQ.I) • vec_commutator drift

/-- Embedding of `DenseVectorizedLindbladCollection.__init__` as written in the source:
the vectorized Hamiltonian and dissipator terms are computed, but the call
`super().__init__(total_ops, drift=vec_drift)` evaluates the undefined name
`vec_drift` and unconditionally raises `NameError`, so construction never succeeds. -/
def DenseVectorizedLindbladCollection.init {k m n : ℕ} (_ : Fin k → Mat n) (_ : Mat n)
    (_ : Option (Fin m → Mat n)) :
    Except String (DenseOperatorCollection (k + m) (Fin n × Fin n)) :=
  .error "NameError: name vec_drift is not defined"

/-- The stacked operator array the vectorized constructor builds before failing:
`np.append(-1j * vec_commutator(hamiltonian_operators), vec_dissipator(dissipator_operators))`. -/
def vectorizedTotalOps {k m n : ℕ} (hamiltonian_operators : Fin k → Mat n)
    (dissipator_operators : Fin m → Mat n) :
    Fin (k + m) → Matrix (Fin n × Fin n) (Fin n × Fin n) CQ :=
  Fin.append (fun j => (-CQ.I) • vec_commutator (hamiltonian_operators j))
    (fun l => vec_dissipator (dissipator_operators l))

/-- Modelled from the spec: the intended `DenseVectorizedLindbladCollection`
constructor (dissipators present), with the undefined `vec_drift` replaced by the
spec-intended vectorized drift. -/
def intendedVectorizedCollection {k m n : ℕ} (hamiltonian_operators : Fin k → Mat n)
    (drift : Mat n) (dissipator_operators : Fin m → Mat n) :
    DenseOperatorCollection (k + m) (Fin n × Fin n) :=
  ⟨vectorizedTotalOps hamiltonian_operators dissipator_operators, some (vec_drift drift)⟩

/-- Embedding of `DenseVectorizedLindbladCollection.evaluate_rhs` on the intended
collection (dissipators present).  The source concatenates the Hamiltonian and
dissipator signal values when `np.any(signal_values[1] != 0)`; when every dissipator
signal value is zero it passes only the Hamiltonian values, and the subsequent
`np.tensordot` of the `(k,)` signal vector with the `(k+m,)` operator stack raises a
shape mismatch `ValueError` whenever `m` is nonzero (for `m = 0` the two signal
vectors coincide). -/
def intendedVectorizedRhs {k m n : ℕ} (hamiltonian_operators : Fin k → Mat n)
    (drift : Mat n) (dissipator_operators : Fin m → Mat n) (ham_signal_values : Fin k → CQ)
    (dis_signal_values : Fin m → CQ) (y : Fin n × Fin n → CQ) :
    Except String (Fin n × Fin n → CQ) :=
  if (∀ l, dis_signal_values l = 0) ∧ m ≠ 0 then
    .error "ValueError: shape-mismatch for sum"
  else
    .ok ((intendedVectorizedCollection hamiltonian_operators drift
      dissipator_operators).evaluate_rhs_vec (Fin.append ham_signal_values
        dis_signal_values) y)

/-- The right-hand side of the Lindblad equation as stated in the spec and in the
class docstring: `-i[H, ρ] + Σ_j γ_j (L_j ρ L_j† - (1/2) {L_j† L_j, ρ})` with
`H = Σ_j s_j H_j + H_d`. -/
def lindbladRHS {k m n : ℕ} (hamiltonian_operators : Fin k → Mat n) (hd : Mat n)
    (L : Fin m → Mat n) (sH : Fin k → CQ) (γ : Fin m → CQ) (ρ : Mat n) : Mat n :=
  let H : Mat n := (∑ j, sH j • hamiltonian_operators j) + hd
  (-CQ.I) • (H * ρ - ρ * H)
    + ∑ l, γ l • (L l * ρ * dagger (L l)
      - CQ.ofRat (1 / 2) • (dagger (L l) * L l * ρ + ρ * (dagger (L l) * L l)))

theorem CQ.ext {a b : CQ} (h1 : a.re = b.re) (h2 : a.im = b.im) : a = b := by
  cases a; cases b; simp_all

@[simp] theorem CQ.zero_re : (0 : CQ).re = 0 := rfl
@[simp] theorem CQ.zero_im : (0 : CQ).im = 0 := rfl
@[simp] theorem CQ.one_re : (1 : CQ).re = 1 := rfl
@[simp] theorem CQ.one_im : (1 : CQ).im = 0 := rfl
@[simp] theorem CQ.add_re (a b : CQ) : (a + b).re = a.re + b.re := rfl
@[simp] theorem CQ.add_im (a b : CQ) : (a + b).im = a.im + b.im := rfl
@[simp] theorem CQ.neg_re (a : CQ) : (-a).re = -a.re := rfl
@[simp] theorem CQ.neg_im (a : CQ) : (-a).im = -a.im := rfl
@[simp] theorem CQ.mul_re (a b : CQ) : (a * b).re = a.re * b.re - a.im * b.im := rfl
@[simp] theorem CQ.mul_im (a b : CQ) : (a * b).im = a.re * b.im + a.im * b.re := rfl
@[simp] theorem CQ.ofRat_re (q : ℚ) : (CQ.ofRat q).re = q := rfl
@[simp] theorem CQ.ofRat_im (q : ℚ) : (CQ.ofRat q).im = 0 := rfl

@[simp] theorem CQ.sub_re (a b : CQ) : (a - b).re = a.re - b.re := by
  rw [sub_eq_add_neg, sub_eq_add_neg, CQ.add_re, CQ.neg_re]

@[simp] theorem CQ.sub_im (a b : CQ) : (a - b).im = a.im - b.im := by
  rw [sub_eq_add_neg, sub_eq_add_neg, CQ.add_im, CQ.neg_im]

theorem abs_npRoundInt_sub (x : ℚ) : |(npRoundInt x : ℚ) - x| ≤ 1 / 2 := by
  have h0 : (0 : ℚ) ≤ Int.fract x := Int.fract_nonneg x
  have h1 : Int.fract x < 1 := Int.fract_lt_one x
  have key : Int.fract x = x - (⌊x⌋ : ℚ) := rfl
  unfold npRoundInt
  split_ifs with h h2 h3 <;>
    (rw [abs_le]; constructor <;> (push_cast; linarith))

theorem abs_roundDec_sub (dec : ℕ) (x : ℚ) :
    |roundDec dec x - x| ≤ 1 / (2 * 10 ^ dec) := by
  have hp : (0 : ℚ) < 10 ^ dec := by positivity
  have h := abs_npRoundInt_sub (x * 10 ^ dec)
  have hrw : roundDec dec x - x
      = ((npRoundInt (x * 10 ^ dec) : ℚ) - x * 10 ^ dec) / 10 ^ dec := by
    field_simp [roundDec]
    ring
  rw [hrw, abs_div, abs_of_pos hp, div_le_iff₀ hp]
  calc |(npRoundInt (x * 10 ^ dec) : ℚ) - x * 10 ^ dec| ≤ 1 / 2 := h
    _ = 1 / (2 * 10 ^ dec) * 10 ^ dec := by field_simp

theorem tensordot1_eq_sum {k : ℕ} {ι : Type} [Fintype ι] (s : Fin k → CQ)
    (ops : Fin k → Matrix ι ι CQ) : tensordot1 s ops = ∑ l, s l • ops l := by
  ext i j
  simp [tensordot1, Matrix.sum_apply]

theorem CQ.sum_re {α : Type} (t : Finset α) (f : α → CQ) :
    (∑ x ∈ t, f x).re = ∑ x ∈ t, (f x).re := by
  induction t using Finset.cons_induction with
  | empty => simp
  | cons a t ha ih => simp [Finset.sum_cons, ih]

theorem CQ.sum_im {α : Type} (t : Finset α) (f : α → CQ) :
    (∑ x ∈ t, f x).im = ∑ x ∈ t, (f x).im := by
  induction t using Finset.cons_induction with
  | empty => simp
  | cons a t ha ih => simp [Finset.sum_cons, ih]

theorem sum_mulVec {α ι : Type} [Fintype ι] (t : Finset α) (f : α → Matrix ι ι CQ)
    (v : ι → CQ) : (∑ x ∈ t, f x).mulVec v = ∑ x ∈ t, (f x).mulVec v := by
  induction t using Finset.cons_induction with
  | empty => simp [Matrix.mulVec]
  | cons a t ha ih => simp [Finset.sum_cons, Matrix.add_mulVec, ih]

/-- C9: packing then unpacking a batch of density matrices is the identity. -/
theorem package_unpackage_roundtrip : ∀ (b n : ℕ) (y : Fin b → Mat n),
    unpackage_density_matrices (package_density_matrices y) = y :=
  fun _ _ _ => rfl

/-- C10: `SparseOperatorCollection.evaluate_rhs` falls through both shape branches for
a 0-D or 3-D state and implicitly returns `None`, neither computing a derivative nor
raising. -/
theorem sparse_evaluate_rhs_other_ndim_none :
    ∀ (k n : ℕ) (c : SparseOperatorCollection k n) (s : Fin k → CQ),
      (∀ z, c.evaluate_rhs s (.scalar z) = none)
        ∧ ∀ b p Y, c.evaluate_rhs s (.arr3 b p Y) = none :=
  fun _ _ _ _ => ⟨fun _ => rfl, fun _ _ _ => rfl⟩

/-- C6: `evaluate_generator` on both non-vectorized Lindblad collections raises the
unsupported-operation error (`ValueError` in the source) for every input and never
returns a value. -/
theorem lindblad_evaluate_generator_raises :
    ∀ (k m n : ℕ) (c : DenseLindbladCollection k m n) (c2 : SparseLindbladCollection k m n)
      (s : Fin k → CQ),
      c.evaluate_generator s
          = .error "Non-vectorized Lindblad collections cannot be evaluated without a state."
        ∧ c2.evaluate_generator s
          = .error "Non-vectorized Lindblad collections cannot be evaluated without a state." :=
  fun _ _ _ _ _ _ => ⟨rfl, rfl⟩

/-- C5: `DenseVectorizedLindbladCollection.__init__` always raises `NameError` on the
undefined symbol `vec_drift`; no collection is ever constructed and nothing is stored. -/
theorem vectorized_init_raises :
    ∀ (k m n : ℕ) (ham : Fin k → Mat n) (d : Mat n) (diss : Option (Fin m → Mat n)),
      DenseVectorizedLindbladCollection.init ham d diss
        = .error "NameError: name vec_drift is not defined" :=
  fun _ _ _ _ _ _ => rfl

/-- C7 counterexample: `num_operators` on a `DenseLindbladCollection` constructed
without dissipator operators fails (`None.shape` raises `AttributeError`), refuting
the claim that `num_operators` never fails. -/
theorem num_operators_counterexample :
    (DenseLindbladCollection.init (k := 1) (m := 0) (n := 2) (fun _ => 1) (some 0)
        none).num_operators
      = .error "AttributeError: NoneType object has no attribute shape" := rfl

/-- C7 amended: `num_operators` returns the construction count `k` for the dense and
sparse non-Lindblad collections; for `DenseLindbladCollection` it returns the pair
`(k, m)` when dissipator operators are present and raises `AttributeError` when they
are absent; for `SparseLindbladCollection` it always raises `IndexError`, because the
inherited implementation indexes `shape[-3]` of the stored 1-D object array. -/
theorem num_operators_amended :
    (∀ (k : ℕ) (ι : Type) (c : DenseOperatorCollection k ι), c.num_operators = k)
      ∧ (∀ (k n : ℕ) (c : SparseOperatorCollection k n), c.num_operators = k)
      ∧ (∀ (k m n : ℕ) (ham : Fin k → Mat n) (hd : Option (Mat n)) (L : Fin m → Mat n),
          (DenseLindbladCollection.init ham hd (some L)).num_operators = .ok (k, m))
      ∧ (∀ (k m n : ℕ) (ham : Fin k → Mat n) (hd : Option (Mat n)),
          (DenseLindbladCollection.init (m := m) ham hd none).num_operators
            = .error "AttributeError: NoneType object has no attribute shape")
      ∧ (∀ (k m n : ℕ) (c : SparseLindbladCollection k m n),
          c.num_operators = .error "IndexError: tuple index out of range") :=
  ⟨fun _ _ _ => rfl, fun _ _ _ => rfl, fun _ _ _ _ _ _ => rfl, fun _ _ _ _ _ => rfl,
    fun _ _ _ _ => rfl⟩

/-- C8 counterexample: constructing a `SparseOperatorCollection` with the drift
argument left at its default `None` raises (`np.round(None, decimals)` fails), refuting
the claim that every collection type supports an omitted drift. -/
theorem drift_none_counterexample :
    SparseOperatorCollection.init (k := 1) (n := 1) (fun _ => 1) none 10
      = .error "TypeError: np.round does not support None" := rfl

/-- C8 amended: only `DenseOperatorCollection` supports an omitted (`None`) drift, in
which case evaluation adds no drift term.  `SparseOperatorCollection` and
`SparseLindbladCollection` raise at construction when the drift is `None`;
`DenseLindbladCollection` stores `None` but every Hamiltonian/RHS evaluation then
raises; `DenseVectorizedLindbladCollection` construction always raises regardless of
the drift. -/
theorem drift_none_amended :
    (∀ (k n : ℕ) (ops : Fin k → Mat n) (s : Fin k → CQ),
        (DenseOperatorCollection.init ops none).evaluate_generator s = tensordot1 s ops)
      ∧ (∀ (k n : ℕ) (ops : Fin k → Mat n) (dec : ℕ),
          SparseOperatorCollection.init ops none dec
            = .error "TypeError: np.round does not support None")
      ∧ (∀ (k m n : ℕ) (ham : Fin k → Mat n) (diss : Option (Fin m → Mat n)) (dec : ℕ),
          SparseLindbladCollection.init ham none diss dec
            = .error "TypeError: np.round does not support None")
      ∧ (∀ (k m n : ℕ) (ham : Fin k → Mat n) (diss : Option (Fin m → Mat n))
          (s : Fin k → CQ),
          (DenseLindbladCollection.init ham none diss).evaluate_hamiltonian s
            = .error "TypeError: unsupported operand types for add: ndarray and NoneType")
      ∧ (∀ (k m n : ℕ) (ham : Fin k → Mat n) (diss : Option (Fin m → Mat n))
          (s : Fin k → CQ) (γ : Fin m → CQ) (y : LState n),
          (DenseLindbladCollection.init ham none diss).evaluate_rhs s γ y
            = .error "TypeError: unsupported operand types for add: ndarray and NoneType")
      ∧ (∀ (k m n : ℕ) (ham : Fin k → Mat n) (d : Mat n) (diss : Option (Fin m → Mat n)),
          DenseVectorizedLindbladCollection.init ham d diss
            = .error "NameError: name vec_drift is not defined") :=
  ⟨fun _ _ _ _ => rfl, fun _ _ _ _ => rfl, fun _ _ _ _ _ _ => rfl, fun _ _ _ _ _ _ => rfl,
    fun _ _ _ _ _ _ _ _ => rfl, fun _ _ _ _ _ _ => rfl⟩

theorem roundCQ_err_re (dec : ℕ) (z : CQ) :
    |(roundCQ dec z - z).re| ≤ 1 / (2 * 10 ^ dec) := by
  simpa [roundCQ] using abs_roundDec_sub dec z.re

theorem roundCQ_err_im (dec : ℕ) (z : CQ) :
    |(roundCQ dec z - z).im| ≤ 1 / (2 * 10 ^ dec) := by
  simpa [roundCQ] using abs_roundDec_sub dec z.im

theorem cq_mul_err_bound (s ε : CQ) (η : ℚ) (_hη : 0 ≤ η) (h1 : |ε.re| ≤ η)
    (h2 : |ε.im| ≤ η) : |(s * ε).re| ≤ CQ.cAbs s * η ∧ |(s * ε).im| ≤ CQ.cAbs s * η := by
  have hre := abs_nonneg s.re
  have him := abs_nonneg s.im
  have e1 : |s.re * ε.re| ≤ |s.re| * η := by
    rw [abs_mul]; exact mul_le_mul_of_nonneg_left h1 hre
  have e2 : |s.im * ε.im| ≤ |s.im| * η := by
    rw [abs_mul]; exact mul_le_mul_of_nonneg_left h2 him
  have e3 : |s.re * ε.im| ≤ |s.re| * η := by
    rw [abs_mul]; exact mul_le_mul_of_nonneg_left h2 hre
  have e4 : |s.im * ε.re| ≤ |s.im| * η := by
    rw [abs_mul]; exact mul_le_mul_of_nonneg_left h1 him
  constructor
  · calc |(s * ε).re| = |s.re * ε.re - s.im * ε.im| := by simp
      _ ≤ |s.re * ε.re| + |s.im * ε.im| := abs_sub _ _
      _ ≤ |s.re| * η + |s.im| * η := add_le_add e1 e2
      _ = CQ.cAbs s * η := by rw [CQ.cAbs]; ring
  · calc |(s * ε).im| = |s.re * ε.im + s.im * ε.re| := by simp
      _ ≤ |s.re * ε.im| + |s.im * ε.re| := abs_add _ _
      _ ≤ |s.re| * η + |s.im| * η := add_le_add e3 e4
      _ = CQ.cAbs s * η := by rw [CQ.cAbs]; ring

theorem sparse_generator_entry_delta {k n : ℕ} (ops : Fin k → Mat n) (d : Mat n)
    (dec : ℕ) (s : Fin k → CQ) (i j : Fin n) :
    (SparseOperatorCollection.make ops d dec).evaluate_generator s i j
        - ((∑ l, s l • ops l) + d) i j
      = (∑ l, s l * (roundCQ dec (ops l i j) - ops l i j))
        + (roundCQ dec (d i j) - d i j) := by
  simp only [SparseOperatorCollection.make, SparseOperatorCollection.evaluate_generator,
    tensordot1, roundMat, Matrix.add_apply, Matrix.sum_apply, Matrix.smul_apply,
    smul_eq_mul, Matrix.of_apply, mul_sub, Finset.sum_sub_distrib]
  ring

theorem sparse_generator_entry_err {k n : ℕ} (ops : Fin k → Mat n) (d : Mat n)
    (dec : ℕ) (s : Fin k → CQ) (i j : Fin n) :
    |((SparseOperatorCollection.make ops d dec).evaluate_generator s i j
        - ((∑ l, s l • ops l) + d) i j).re|
      ≤ ((∑ l, CQ.cAbs (s l)) + 1) * (1 / (2 * 10 ^ dec))
      ∧ |((SparseOperatorCollection.make ops d dec).evaluate_generator s i j
        - ((∑ l, s l • ops l) + d) i j).im|
      ≤ ((∑ l, CQ.cAbs (s l)) + 1) * (1 / (2 * 10 ^ dec)) := by
  have hη : (0 : ℚ) ≤ 1 / (2 * 10 ^ dec) := by positivity
  rw [sparse_generator_entry_delta]
  have hterm : ∀ l : Fin k,
      |(s l * (roundCQ dec (ops l i j) - ops l i j)).re|
          ≤ CQ.cAbs (s l) * (1 / (2 * 10 ^ dec))
        ∧ |(s l * (roundCQ dec (ops l i j) - ops l i j)).im|
          ≤ CQ.cAbs (s l) * (1 / (2 * 10 ^ dec)) := fun l =>
    cq_mul_err_bound _ _ _ hη (roundCQ_err_re dec (ops l i j))
      (roundCQ_err_im dec (ops l i j))
  constructor
  · calc |((∑ l, s l * (roundCQ dec (ops l i j) - ops l i j))
          + (roundCQ dec (d i j) - d i j)).re|
        = |(∑ l, (s l * (roundCQ dec (ops l i j) - ops l i j)).re)
          + (roundCQ dec (d i j) - d i j).re| := by rw [CQ.add_re, CQ.sum_re]
      _ ≤ |∑ l, (s l * (roundCQ dec (ops l i j) - ops l i j)).re|
          + |(roundCQ dec (d i j) - d i j).re| := abs_add _ _
      _ ≤ (∑ l, |(s l * (roundCQ dec (ops l i j) - ops l i j)).re|)
          + |(roundCQ dec (d i j) - d i j).re| :=
        add_le_add_right (Finset.abs_sum_le_sum_abs _ _) _
      _ ≤ (∑ l, CQ.cAbs (s l) * (1 / (2 * 10 ^ dec))) + 1 / (2 * 10 ^ dec) :=
        add_le_add (Finset.sum_le_sum fun l _ => (hterm l).1) (roundCQ_err_re dec (d i j))
      _ = ((∑ l, CQ.cAbs (s l)) + 1) * (1 / (2 * 10 ^ dec)) := by
        rw [← Finset.sum_mul]; ring
  · calc |((∑ l, s l * (roundCQ dec (ops l i j) - ops l i j))
          + (roundCQ dec (d i j) - d i j)).im|
        = |(∑ l, (s l * (roundCQ dec (ops l i j) - ops l i j)).im)
          + (roundCQ dec (d i j) - d i j).im| := by rw [CQ.add_im, CQ.sum_im]
      _ ≤ |∑ l, (s l * (roundCQ dec (ops l i j) - ops l i j)).im|
          + |(roundCQ dec (d i j) - d i j).im| := abs_add _ _
      _ ≤ (∑ l, |(s l * (roundCQ dec (ops l i j) - ops l i j)).im|)
          + |(roundCQ dec (d i j) - d i j).im| :=
        add_le_add_right (Finset.abs_sum_le_sum_abs _ _) _
      _ ≤ (∑ l, CQ.cAbs (s l) * (1 / (2 * 10 ^ dec))) + 1 / (2 * 10 ^ dec) :=
        add_le_add (Finset.sum_le_sum fun l _ => (hterm l).2) (roundCQ_err_im dec (d i j))
      _ = ((∑ l, CQ.cAbs (s l)) + 1) * (1 / (2 * 10 ^ dec)) := by
        rw [← Finset.sum_mul]; ring

/-- C1: `evaluate_generator(s)` equals `Σ_j s[j] G_j + G_d`.  For the dense collection
the equality is exact, with no drift term added when the drift is `None`.  The sparse
collection computes the same weighted sum exactly, but over the operators and drift
rounded entrywise to `decimals` decimal places at construction; each rounded entry is
within half an ulp (`1 / (2 * 10 ^ decimals)`) of the original in each real component,
and consequently every entry of the sparse generator is within
`(Σ_j cAbs(s_j) + 1) / (2 * 10 ^ decimals)` of the exact sum in each real component. -/
theorem evaluate_generator_weighted_sum :
    (∀ (k n : ℕ) (ops : Fin k → Mat n) (d : Mat n) (s : Fin k → CQ),
        (DenseOperatorCollection.init ops (some d)).evaluate_generator s
          = (∑ j, s j • ops j) + d)
      ∧ (∀ (k n : ℕ) (ops : Fin k → Mat n) (s : Fin k → CQ),
          (DenseOperatorCollection.init ops none).evaluate_generator s
            = ∑ j, s j • ops j)
      ∧ (∀ (k n : ℕ) (ops : Fin k → Mat n) (d : Mat n) (dec : ℕ) (s : Fin k → CQ),
          (SparseOperatorCollection.make ops d dec).evaluate_generator s
            = (∑ j, s j • roundMat dec (ops j)) + roundMat dec d)
      ∧ (∀ (dec : ℕ) (z : CQ),
          |(roundCQ dec z).re - z.re| ≤ 1 / (2 * 10 ^ dec)
            ∧ |(roundCQ dec z).im - z.im| ≤ 1 / (2 * 10 ^ dec))
      ∧ (∀ (k n : ℕ) (ops : Fin k → Mat n) (d : Mat n) (dec : ℕ) (s : Fin k → CQ)
          (i j : Fin n),
          |((SparseOperatorCollection.make ops d dec).evaluate_generator s i j
              - ((∑ l, s l • ops l) + d) i j).re|
            ≤ ((∑ l, CQ.cAbs (s l)) + 1) * (1 / (2 * 10 ^ dec))
            ∧ |((SparseOperatorCollection.make ops d dec).evaluate_generator s i j
              - ((∑ l, s l • ops l) + d) i j).im|
            ≤ ((∑ l, CQ.cAbs (s l)) + 1) * (1 / (2 * 10 ^ dec))) := by
  refine ⟨fun k n ops d s => ?_, fun k n ops s => ?_, fun k n ops d dec s => ?_,
    fun dec z => ⟨?_, ?_⟩, fun k n ops d dec s i j => sparse_generator_entry_err ops d dec s i j⟩
  · simp [DenseOperatorCollection.init, DenseOperatorCollection.evaluate_generator,
      tensordot1_eq_sum]
  · simp [DenseOperatorCollection.init, DenseOperatorCollection.evaluate_generator,
      tensordot1_eq_sum]
  · simp [SparseOperatorCollection.make, SparseOperatorCollection.evaluate_generator,
      tensordot1_eq_sum]
  · simpa [roundCQ] using abs_roundDec_sub dec z.re
  · simpa [roundCQ] using abs_roundDec_sub dec z.im

/-- C2: for the non-Lindblad collections, `evaluate_rhs(s, y)` always equals
`evaluate_generator(s) @ y`.  For the dense collection this holds for 1-D and 2-D
states by definition of `np.dot`; for the sparse collection the 2-D branch
materializes the generator and multiplies, while the 1-D branch sums weighted
operator-vector products plus the drift action, and both agree with the generator
applied to the state. -/
theorem evaluate_rhs_eq_generator_apply :
    (∀ (k n : ℕ) (c : DenseOperatorCollection k (Fin n)) (s : Fin k → CQ)
        (y : Fin n → CQ),
        c.evaluate_rhs_vec s y = (c.evaluate_generator s).mulVec y)
      ∧ (∀ (k n p : ℕ) (c : DenseOperatorCollection k (Fin n)) (s : Fin k → CQ)
          (Y : Matrix (Fin n) (Fin p) CQ),
          c.evaluate_rhs_mat s Y = c.evaluate_generator s * Y)
      ∧ (∀ (k n : ℕ) (c : SparseOperatorCollection k n) (s : Fin k → CQ)
          (v : Fin n → CQ),
          c.evaluate_rhs s (.vec v)
            = some (.vec ((c.evaluate_generator s).mulVec v)))
      ∧ (∀ (k n p : ℕ) (c : SparseOperatorCollection k n) (s : Fin k → CQ)
          (Y : Matrix (Fin n) (Fin p) CQ),
          c.evaluate_rhs s (.mat p Y)
            = some (.mat p (c.evaluate_generator s * Y))) := by
  refine ⟨fun _ _ _ _ _ => rfl, fun _ _ _ _ _ _ => rfl, fun k n c s v => ?_,
    fun _ _ _ _ _ _ => rfl⟩
  have h : (fun i => (∑ j, s j * (c.operators j).mulVec v i) + c.drift.mulVec v i)
      = (c.evaluate_generator s).mulVec v := by
    funext i
    rw [SparseOperatorCollection.evaluate_generator, Matrix.add_mulVec,
      tensordot1_eq_sum, sum_mulVec]
    simp [Matrix.smul_mulVec_assoc, Finset.sum_apply, Pi.add_apply, Pi.smul_apply,
      smul_eq_mul]
  rw [SparseOperatorCollection.evaluate_rhs, h]

theorem lindblad_algebra {n m : ℕ} (H ρ : Mat n) (γ : Fin m → CQ)
    (Lf LCf Pf : Fin m → Mat n) :
    ((-CQ.I) • H + CQ.ofRat (-1 / 2) • ∑ l, γ l • Pf l) * ρ
      + ρ * (-((-CQ.I) • H) + CQ.ofRat (-1 / 2) • ∑ l, γ l • Pf l)
      + ∑ l, γ l • (Lf l * ρ * LCf l)
    = (-CQ.I) • (H * ρ - ρ * H)
      + ∑ l, γ l • (Lf l * ρ * LCf l
        - CQ.ofRat (1 / 2) • (Pf l * ρ + ρ * Pf l)) := by
  have hneg : -((-CQ.I) • H) = CQ.I • H := by rw [← neg_smul, neg_neg]
  have hsum1 : (CQ.ofRat (-1 / 2) • ∑ l, γ l • Pf l) * ρ
      = ∑ l, (CQ.ofRat (-1 / 2) * γ l) • (Pf l * ρ) := by
    rw [Matrix.smul_mul, Finset.sum_mul, Finset.smul_sum]
    exact Finset.sum_congr rfl fun l _ => by rw [Matrix.smul_mul, smul_smul]
  have hsum2 : ρ * (CQ.ofRat (-1 / 2) • ∑ l, γ l • Pf l)
      = ∑ l, (CQ.ofRat (-1 / 2) * γ l) • (ρ * Pf l) := by
    rw [Matrix.mul_smul, Finset.mul_sum, Finset.smul_sum]
    exact Finset.sum_congr rfl fun l _ => by rw [Matrix.mul_smul, smul_smul]
  have hrhs : ∀ l : Fin m,
      γ l • (Lf l * ρ * LCf l - CQ.ofRat (1 / 2) • (Pf l * ρ + ρ * Pf l))
        = γ l • (Lf l * ρ * LCf l)
          + ((CQ.ofRat (-1 / 2) * γ l) • (Pf l * ρ)
            + (CQ.ofRat (-1 / 2) * γ l) • (ρ * Pf l)) := by
    intro l
    have hc : -(γ l * CQ.ofRat (1 / 2)) = CQ.ofRat (-1 / 2) * γ l := by
      apply CQ.ext <;> simp <;> ring
    rw [smul_sub, smul_smul, smul_add, sub_eq_add_neg, neg_add, ← neg_smul, ← neg_smul,
      hc]
  rw [Matrix.add_mul, Matrix.mul_add, hsum1, hsum2, hneg, Matrix.smul_mul,
    Matrix.mul_smul, smul_sub]
  simp only [hrhs]
  rw [Finset.sum_add_distrib, Finset.sum_add_distrib]
  have hid : -((-CQ.I) • (ρ * H)) = CQ.I • (ρ * H) := by rw [← neg_smul, neg_neg]
  rw [sub_eq_add_neg, hid]
  abel

theorem lindblad_code_matrix_eq {k m n : ℕ} (ham : Fin k → Mat n) (hd : Mat n)
    (L : Fin m → Mat n) (sH : Fin k → CQ) (γ : Fin m → CQ) (ρ : Mat n) :
    ((-CQ.I) • (tensordot1 sH ham + hd)
        + CQ.ofRat (-1 / 2) • tensordot1 γ (fun l => dagger (L l) * L l)) * ρ
      + ρ * (-((-CQ.I) • (tensordot1 sH ham + hd))
        + CQ.ofRat (-1 / 2) • tensordot1 γ (fun l => dagger (L l) * L l))
      + tensordot1 γ (fun l => L l * ρ * dagger (L l))
    = lindbladRHS ham hd L sH γ ρ := by
  simp only [tensordot1_eq_sum, lindbladRHS]
  exact lindblad_algebra ((∑ j, sH j • ham j) + hd) ρ γ L (fun l => dagger (L l))
    (fun l => dagger (L l) * L l)

theorem dense_lindblad_rhs_single {k m n : ℕ} (ham : Fin k → Mat n) (hd : Mat n)
    (L : Fin m → Mat n) (sH : Fin k → CQ) (γ : Fin m → CQ) (ρ : Mat n) :
    (DenseLindbladCollection.init ham (some hd) (some L)).evaluate_rhs sH γ (.single ρ)
      = .ok (.mat2 n n (lindbladRHS ham hd L sH γ ρ)) := by
  have hrfl : (DenseLindbladCollection.init ham (some hd) (some L)).evaluate_rhs sH γ
      (.single ρ)
      = .ok (.mat2 n n
        (((-CQ.I) • (tensordot1 sH ham + hd)
            + CQ.ofRat (-1 / 2) • tensordot1 γ (fun l => dagger (L l) * L l)) * ρ
          + ρ * (-((-CQ.I) • (tensordot1 sH ham + hd))
            + CQ.ofRat (-1 / 2) • tensordot1 γ (fun l => dagger (L l) * L l))
          + tensordot1 γ (fun l => L l * ρ * dagger (L l)))) := rfl
  rw [hrfl]
  exact congrArg (fun M => Except.ok (NpOut.mat2 n n M))
    (lindblad_code_matrix_eq ham hd L sH γ ρ)

theorem dense_lindblad_rhs_batch {k m n b : ℕ} (ham : Fin k → Mat n) (hd : Mat n)
    (L : Fin m → Mat n) (sH : Fin k → CQ) (γ : Fin m → CQ) (ρs : Fin b → Mat n) :
    (DenseLindbladCollection.init ham (some hd) (some L)).evaluate_rhs sH γ
        (.batch b ρs)
      = .ok (.arr3 b n n (fun bi i j => lindbladRHS ham hd L sH γ (ρs bi) i j)) := by
  have hrfl : (DenseLindbladCollection.init ham (some hd) (some L)).evaluate_rhs sH γ
      (.batch b ρs)
      = .ok (.arr3 b n n (fun bi i j =>
        (((-CQ.I) • (tensordot1 sH ham + hd)
            + CQ.ofRat (-1 / 2) • tensordot1 γ (fun l => dagger (L l) * L l)) * ρs bi
          + ρs bi * (-((-CQ.I) • (tensordot1 sH ham + hd))
            + CQ.ofRat (-1 / 2) • tensordot1 γ (fun l => dagger (L l) * L l))
          + tensordot1 γ (fun l => L l * ρs bi * dagger (L l))) i j)) := rfl
  rw [hrfl]
  refine congrArg (fun F => Except.ok (NpOut.arr3 b n n F)) ?_
  funext bi i j
  exact congrFun (congrFun (lindblad_code_matrix_eq ham hd L sH γ (ρs bi)) i) j

theorem comm_smul_eq {n : ℕ} (H ρ : Mat n) :
    ((-CQ.I) • H) * ρ - ρ * ((-CQ.I) • H) = (-CQ.I) • (H * ρ - ρ * H) := by
  rw [Matrix.smul_mul, Matrix.mul_smul, smul_sub]

theorem scenario_eval_zero :
    (DenseLindbladCollection.init (k := 1) (m := 1) (n := 2)
        (fun _ => Matrix.of ![![0, 1], ![1, 0]]) (some 0)
        (some (fun _ => Matrix.of ![![0, 1], ![0, 0]]))).evaluate_rhs
        (fun _ => 0) (fun _ => 1) (.single (Matrix.of ![![1, 0], ![0, 0]]))
      = .ok (.mat2 2 2 0) := by
  rw [dense_lindblad_rhs_single]
  refine congrArg (fun M => Except.ok (NpOut.mat2 2 2 M)) ?_
  ext i j
  fin_cases i <;> fin_cases j <;>
    (apply CQ.ext <;>
      simp [lindbladRHS, dagger, CQ.conj, CQ.I, CQ.ofRat, Matrix.mul_apply,
        Matrix.vecMul, Matrix.dotProduct, Fin.sum_univ_one, Fin.sum_univ_two])

/-- C3 counterexample: in the claimed concrete scenario (dissipator `[[0,1],[0,0]]`,
dissipator signal `1`, Hamiltonian signal `0`, drift `0`, state `[[1,0],[0,0]]`) the
code returns the zero matrix, not `[[-1,0],[0,1]]`: the state is annihilated by the
dissipator (`L ρ = 0` and `L†L ρ = ρ L†L = 0`), so every dissipative term vanishes. -/
theorem lindblad_scenario_counterexample :
    (DenseLindbladCollection.init (k := 1) (m := 1) (n := 2)
        (fun _ => Matrix.of ![![0, 1], ![1, 0]]) (some 0)
        (some (fun _ => Matrix.of ![![0, 1], ![0, 0]]))).evaluate_rhs
        (fun _ => 0) (fun _ => 1) (.single (Matrix.of ![![1, 0], ![0, 0]]))
      ≠ .ok (.mat2 2 2 (Matrix.of ![![-1, 0], ![0, 1]])) := by
  rw [scenario_eval_zero]
  intro h
  injection h with h3
  rw [NpOut.mat2.injEq] at h3
  have h2 : (0 : Mat 2) = Matrix.of ![![-1, 0], ![0, 1]] := eq_of_heq h3.2.2
  have h4 := congrArg CQ.re (congrFun (congrFun h2 0) 0)
  simp at h4

/-- C3 amended: `DenseLindbladCollection.evaluate_rhs` equals
`-i[H,ρ] + Σ_j γ_j (L_j ρ L_j† - (1/2){L_j†L_j, ρ})` with `H = Σ_j s_H[j] H_j + H_d`
for single-matrix states and, with dissipators configured, also batchwise for batched
states; without dissipators it equals `-i[H,ρ]` for single-matrix states, while for
batched states the `np.dot`-based branch mis-broadcasts and raises `ValueError`
whenever the batch size is neither `n` nor `1` (and `n ≠ 1`); and in the claimed
concrete scenario the result is the zero matrix rather than `[[-1,0],[0,1]]`. -/
theorem lindblad_rhs_amended :
    (∀ (k m n : ℕ) (ham : Fin k → Mat n) (hd : Mat n) (L : Fin m → Mat n)
        (sH : Fin k → CQ) (γ : Fin m → CQ) (ρ : Mat n),
        (DenseLindbladCollection.init ham (some hd) (some L)).evaluate_rhs sH γ
            (.single ρ)
          = .ok (.mat2 n n (lindbladRHS ham hd L sH γ ρ)))
      ∧ (∀ (k m n b : ℕ) (ham : Fin k → Mat n) (hd : Mat n) (L : Fin m → Mat n)
          (sH : Fin k → CQ) (γ : Fin m → CQ) (ρs : Fin b → Mat n),
          (DenseLindbladCollection.init ham (some hd) (some L)).evaluate_rhs sH γ
              (.batch b ρs)
            = .ok (.arr3 b n n (fun bi i j => lindbladRHS ham hd L sH γ (ρs bi) i j)))
      ∧ (∀ (k m n : ℕ) (ham : Fin k → Mat n) (hd : Mat n) (sH : Fin k → CQ)
          (γ : Fin m → CQ) (ρ : Mat n),
          (DenseLindbladCollection.init (m := m) ham (some hd) none).evaluate_rhs sH γ
              (.single ρ)
            = .ok (.mat2 n n ((-CQ.I) • (((∑ j, sH j • ham j) + hd) * ρ
              - ρ * ((∑ j, sH j • ham j) + hd)))))
      ∧ (∀ (k m n b : ℕ) (ham : Fin k → Mat n) (hd : Mat n) (sH : Fin k → CQ)
          (γ : Fin m → CQ) (ρs : Fin b → Mat n),
          b ≠ n → b ≠ 1 → n ≠ 1 →
          (DenseLindbladCollection.init (m := m) ham (some hd) none).evaluate_rhs sH γ
              (.batch b ρs)
            = .error "ValueError: operands could not be broadcast together")
      ∧ (DenseLindbladCollection.init (k := 1) (m := 1) (n := 2)
          (fun _ => Matrix.of ![![0, 1], ![1, 0]]) (some 0)
          (some (fun _ => Matrix.of ![![0, 1], ![0, 0]]))).evaluate_rhs
          (fun _ => 0) (fun _ => 1) (.single (Matrix.of ![![1, 0], ![0, 0]]))
        = .ok (.mat2 2 2 0) := by
  refine ⟨fun k m n ham hd L sH γ ρ => dense_lindblad_rhs_single ham hd L sH γ ρ,
    fun k m n b ham hd L sH γ ρs => dense_lindblad_rhs_batch ham hd L sH γ ρs,
    fun k m n ham hd sH γ ρ => ?_, fun k m n b ham hd sH γ ρs hbn hb1 hn1 => ?_,
    scenario_eval_zero⟩
  · have hrfl : (DenseLindbladCollection.init (m := m) ham (some hd) none).evaluate_rhs
        sH γ (.single ρ)
        = .ok (.mat2 n n (((-CQ.I) • (tensordot1 sH ham + hd)) * ρ
          - ρ * ((-CQ.I) • (tensordot1 sH ham + hd)))) := rfl
    rw [hrfl, comm_smul_eq, tensordot1_eq_sum]
  · show (if hbn : b = n then _ else if hb1 : b = 1 then _ else if hn1 : n = 1
      then _ else Except.error
        "ValueError: operands could not be broadcast together") = _
    rw [dif_neg hbn, dif_neg hb1, dif_neg hn1]

/-- Witness for the hypotheses of `lindblad_rhs_amended`: a concrete batched state of
3 two-dimensional density matrices with no dissipators hits the broadcast error. -/
theorem lindblad_rhs_amended_witness :
    ((3 ≠ 2) ∧ (3 ≠ 1) ∧ (2 ≠ 1))
      ∧ (DenseLindbladCollection.init (k := 1) (m := 0) (n := 2) (fun _ => 1) (some 0)
          none).evaluate_rhs (fun _ => 0) (fun l => l.elim0) (.batch 3 (fun _ => 1))
        = .error "ValueError: operands could not be broadcast together" :=
  ⟨⟨by decide, by decide, by decide⟩,
    lindblad_rhs_amended.2.2.2.1 1 0 2 3 (fun _ => 1) 0 (fun _ => 0) (fun l => l.elim0)
      (fun _ => 1) (by decide) (by decide) (by decide)⟩

theorem vec_add {n : ℕ} (X Y : Mat n) : vec (X + Y) = vec X + vec Y := rfl

theorem vec_smul {n : ℕ} (c : CQ) (X : Mat n) : vec (c • X) = c • vec X := rfl

theorem vec_sum {n : ℕ} {α : Type} (t : Finset α) (f : α → Mat n) :
    vec (∑ x ∈ t, f x) = ∑ x ∈ t, vec (f x) := by
  induction t using Finset.cons_induction with
  | empty => rfl
  | cons a t ha ih => rw [Finset.sum_cons, Finset.sum_cons, vec_add, ih]

theorem conjMat_transpose {n : ℕ} (M : Mat n) : (conjMat M).transpose = dagger M := rfl

theorem kron_mulVec_vec {n : ℕ} (A B ρ : Mat n) :
    (kron A B).mulVec (vec ρ) = vec (B * ρ * A.transpose) := by
  funext p
  obtain ⟨j, i⟩ := p
  simp only [Matrix.mulVec, Matrix.dotProduct, kron, vec, Matrix.of_apply,
    Matrix.mul_apply, Matrix.transpose_apply]
  rw [Fintype.sum_prod_type]
  refine Finset.sum_congr rfl fun l _ => ?_
  rw [Finset.sum_mul]
  exact Finset.sum_congr rfl fun x _ => by ring

theorem kron_one_left_mulVec {n : ℕ} (A ρ : Mat n) :
    (kron 1 A).mulVec (vec ρ) = vec (A * ρ) := by
  rw [kron_mulVec_vec, Matrix.transpose_one, Matrix.mul_one]

theorem kron_right_mulVec {n : ℕ} (A ρ : Mat n) :
    (kron A.transpose 1).mulVec (vec ρ) = vec (ρ * A) := by
  rw [kron_mulVec_vec, Matrix.transpose_transpose, Matrix.one_mul]

theorem kron_conj_mulVec {n : ℕ} (L ρ : Mat n) :
    (kron (conjMat L) L).mulVec (vec ρ) = vec (L * ρ * dagger L) := by
  rw [kron_mulVec_vec, conjMat_transpose]

theorem vec_commutator_mulVec {n : ℕ} (A ρ : Mat n) :
    (vec_commutator A).mulVec (vec ρ) = vec (A * ρ - ρ * A) := by
  rw [vec_commutator, Matrix.sub_mulVec, kron_one_left_mulVec, kron_right_mulVec]
  rfl

theorem vec_dissipator_mulVec {n : ℕ} (L ρ : Mat n) :
    (vec_dissipator L).mulVec (vec ρ)
      = vec (L * ρ * dagger L
        - CQ.ofRat (1 / 2) • (dagger L * L * ρ + ρ * (dagger L * L))) := by
  rw [vec_dissipator, Matrix.sub_mulVec, kron_conj_mulVec, Matrix.smul_mulVec_assoc,
    Matrix.add_mulVec, kron_one_left_mulVec, kron_right_mulVec]
  rfl

theorem ham_term_algebra {k n : ℕ} (ham : Fin k → Mat n) (hd ρ : Mat n)
    (sH : Fin k → CQ) :
    (∑ j, sH j • ((-CQ.I) • (ham j * ρ - ρ * ham j)))
        + (-CQ.I) • (hd * ρ - ρ * hd)
      = (-CQ.I) • (((∑ j, sH j • ham j) + hd) * ρ
        - ρ * ((∑ j, sH j • ham j) + hd)) := by
  have hterm : ∀ j : Fin k, sH j • ((-CQ.I) • (ham j * ρ - ρ * ham j))
      = (-CQ.I) • ((sH j • ham j) * ρ - ρ * (sH j • ham j)) := by
    intro j
    rw [smul_smul, Matrix.smul_mul, Matrix.mul_smul, ← smul_sub, smul_smul, mul_comm]
  calc (∑ j, sH j • ((-CQ.I) • (ham j * ρ - ρ * ham j)))
        + (-CQ.I) • (hd * ρ - ρ * hd)
      = (∑ j, (-CQ.I) • ((sH j • ham j) * ρ - ρ * (sH j • ham j)))
        + (-CQ.I) • (hd * ρ - ρ * hd) := by
        rw [Finset.sum_congr rfl fun j _ => hterm j]
    _ = (-CQ.I) • ((∑ j, ((sH j • ham j) * ρ - ρ * (sH j • ham j)))
        + (hd * ρ - ρ * hd)) := by rw [← Finset.smul_sum, ← smul_add]
    _ = (-CQ.I) • (((∑ j, sH j • ham j) + hd) * ρ
        - ρ * ((∑ j, sH j • ham j) + hd)) := by
        congr 1
        rw [Matrix.add_mul, Matrix.mul_add, Finset.sum_mul, Finset.mul_sum,
          Finset.sum_sub_distrib]
        abel

theorem intended_vectorized_core {k m n : ℕ} (ham : Fin k → Mat n) (hd : Mat n)
    (L : Fin m → Mat n) (sH : Fin k → CQ) (γ : Fin m → CQ) (ρ : Mat n) :
    ((intendedVectorizedCollection ham hd L).evaluate_generator
        (Fin.append sH γ)).mulVec (vec ρ)
      = vec (lindbladRHS ham hd L sH γ ρ) := by
  have hgen : (intendedVectorizedCollection ham hd L).evaluate_generator
      (Fin.append sH γ)
      = tensordot1 (Fin.append sH γ) (vectorizedTotalOps ham L) + vec_drift hd := rfl
  rw [hgen, Matrix.add_mulVec, tensordot1_eq_sum, sum_mulVec, Fin.sum_univ_add]
  simp only [Matrix.smul_mulVec_assoc, vectorizedTotalOps, Fin.append_left,
    Fin.append_right, vec_drift, vec_commutator_mulVec, vec_dissipator_mulVec]
  simp only [← vec_smul, ← vec_sum, ← vec_add]
  refine congrArg vec ?_
  rw [lindbladRHS, ← ham_term_algebra]
  abel

/-- C4 (on the spec-modelled intended constructor): since the source constructor always
raises `NameError` on the undefined `vec_drift`, the claim is settled against the
spec-intended vectorized collection (`intendedVectorizedCollection`, with the drift
vectorized by the commutator-superoperator transform).  Whenever some dissipator
signal value is nonzero (the source concatenation path), the vectorized `evaluate_rhs`
on the column-stacked state equals the column-stacking of the non-vectorized Lindblad
right-hand side, so un-flattening it reproduces the non-vectorized
`evaluate_rhs` exactly. -/
theorem vectorized_lindblad_equiv (k m n : ℕ) (ham : Fin k → Mat n) (hd : Mat n)
    (L : Fin m → Mat n) (sH : Fin k → CQ) (γ : Fin m → CQ) (ρ : Mat n)
    (h : ∃ l, γ l ≠ 0) :
    intendedVectorizedRhs ham hd L sH γ (vec ρ)
        = .ok (vec (lindbladRHS ham hd L sH γ ρ))
      ∧ unvec (vec (lindbladRHS ham hd L sH γ ρ)) = lindbladRHS ham hd L sH γ ρ
      ∧ (DenseLindbladCollection.init ham (some hd) (some L)).evaluate_rhs sH γ
          (.single ρ)
        = .ok (.mat2 n n (lindbladRHS ham hd L sH γ ρ)) := by
  have hcond : ¬((∀ l, γ l = 0) ∧ m ≠ 0) := by
    rintro ⟨hall, -⟩
    obtain ⟨l, hl⟩ := h
    exact hl (hall l)
  refine ⟨?_, rfl, dense_lindblad_rhs_single ham hd L sH γ ρ⟩
  rw [intendedVectorizedRhs, if_neg hcond]
  exact congrArg Except.ok (intended_vectorized_core ham hd L sH γ ρ)

/-- Witness for the hypothesis of `vectorized_lindblad_equiv` at a concrete
one-dimensional instance with dissipator signal value 1. -/
theorem vectorized_lindblad_equiv_witness :
    (∃ l : Fin 1, (fun _ : Fin 1 => (1 : CQ)) l ≠ 0)
      ∧ (intendedVectorizedRhs (fun _ : Fin 1 => (1 : Mat 1)) 0
            (fun _ : Fin 1 => (1 : Mat 1)) (fun _ : Fin 1 => (0 : CQ))
            (fun _ : Fin 1 => (1 : CQ)) (vec 1)
          = .ok (vec (lindbladRHS (fun _ : Fin 1 => (1 : Mat 1)) 0
            (fun _ : Fin 1 => (1 : Mat 1)) (fun _ : Fin 1 => (0 : CQ))
            (fun _ : Fin 1 => (1 : CQ)) 1))
        ∧ unvec (vec (lindbladRHS (fun _ : Fin 1 => (1 : Mat 1)) 0
            (fun _ : Fin 1 => (1 : Mat 1)) (fun _ : Fin 1 => (0 : CQ))
            (fun _ : Fin 1 => (1 : CQ)) 1))
          = lindbladRHS (fun _ : Fin 1 => (1 : Mat 1)) 0
            (fun _ : Fin 1 => (1 : Mat 1)) (fun _ : Fin 1 => (0 : CQ))
            (fun _ : Fin 1 => (1 : CQ)) 1
        ∧ (DenseLindbladCollection.init (fun _ : Fin 1 => (1 : Mat 1)) (some 0)
            (some (fun _ : Fin 1 => (1 : Mat 1)))).evaluate_rhs
            (fun _ : Fin 1 => (0 : CQ)) (fun _ : Fin 1 => (1 : CQ)) (.single 1)
          = .ok (.mat2 1 1 (lindbladRHS (fun _ : Fin 1 => (1 : Mat 1)) 0
            (fun _ : Fin 1 => (1 : Mat 1)) (fun _ : Fin 1 => (0 : CQ))
            (fun _ : Fin 1 => (1 : CQ)) 1))) := by
  have hex : ∃ l : Fin 1, (fun _ : Fin 1 => (1 : CQ)) l ≠ 0 :=
    ⟨0, fun hc => absurd (congrArg CQ.re hc) (by simp)⟩
  exact ⟨hex, vectorized_lindblad_equiv 1 1 1 _ _ _ _ _ _ hex⟩
